import Mathlib

/-!
Verification of the AIFormFiller autofill core against its specification.

The JavaScript sources are shallowly embedded:
* `src/lib/field-safety.js` — the sensitivity classifier (two call shapes).
* `src/unnamed/part_000` (content script, final revision starting near line 800)
  — field collection (`collectFields`, `getFieldDescriptor`) and value
  application (`fillField`).
* `src/background.js` — fingerprinting, dedup, batching, retry and the
  answer-application phase of `processAutofill`, plus `cleanModelAnswer` and
  the answer-map construction of `queryFieldBatchAnswers`.

Strings are Lean `String`s; JavaScript's `toLowerCase` is modelled on the
ASCII range (all string constants in the sources are ASCII), `trim` and the
whitespace class `\s` are modelled with `Char.isWhitespace`.  DOM state that
the claims do not touch (visibility computation, label resolution by DOM
traversal, the uid counter) is carried as plain fields on the element model.
-/

namespace AFF

/-- ASCII lower-casing of one character, as `String.prototype.toLowerCase`
acts on the ASCII letters used throughout the sources ('A'–'Z' are code
points 65–90, their lower-case forms 32 above). -/
def lowerChar (c : Char) : Char :=
  if 65 ≤ c.toNat ∧ c.toNat ≤ 90 then Char.ofNat (c.toNat + 32) else c

/-- `s.toLowerCase()`. -/
def strToLower (s : String) : String :=
  ⟨s.data.map lowerChar⟩

/-- `s.trim()`: strip whitespace from both ends. -/
def jsTrimList (l : List Char) : List Char :=
  ((l.dropWhile Char.isWhitespace).reverse.dropWhile Char.isWhitespace).reverse

/-- `s.trim()` on strings. -/
def jsTrim (s : String) : String :=
  ⟨jsTrimList s.data⟩

/-- One pass of `replace(/\s+/g, " ")`: each maximal whitespace run becomes a
single space.  The flag records whether the previous character was
whitespace. -/
def collapseWsAux : Bool → List Char → List Char
  | _, [] => []
  | prevWs, c :: rest =>
    if c.isWhitespace then
      if prevWs then collapseWsAux true rest
      else ' ' :: collapseWsAux true rest
    else c :: collapseWsAux false rest

/-- `cleanText` of the content script and `clean` of field-safety.js (the two
sources define the identical function):
`String(v || "").replace(/\s+/g, " ").trim()`. -/
def cleanText (s : String) : String :=
  jsTrim ⟨collapseWsAux false s.data⟩

/-- `split(/\s+/).filter(Boolean)` over the characters: the maximal
non-whitespace runs. -/
def splitWsRuns : List Char → List (List Char)
  | [] => []
  | c :: rest =>
    if c.isWhitespace then splitWsRuns rest
    else (c :: rest.takeWhile (fun d => !d.isWhitespace)) ::
      splitWsRuns (rest.dropWhile (fun d => !d.isWhitespace))
termination_by l => l.length
decreasing_by
  · simp
  · exact Nat.lt_succ_of_le (List.dropWhile_sublist _).length_le

/-- `s.split(/\s+/).filter(Boolean)` on strings. -/
def wsSplitTokens (s : String) : List String :=
  (splitWsRuns s.data).map (fun l => ⟨l⟩)

/-- `s.includes(sub)`: `sub` occurs contiguously in `s` (the empty string is
included in every string, as in JavaScript). -/
def strIncludes (s sub : String) : Bool :=
  decide (sub.data <:+: s.data)

/-! ## field-safety.js: the sensitivity classifier -/

/-- `SENSITIVE_INPUT_TYPES` (a `Set`, modelled as a list with membership). -/
def SENSITIVE_INPUT_TYPES : List String := ["password"]

/-- `SENSITIVE_AUTOCOMPLETE_TOKENS`. -/
def SENSITIVE_AUTOCOMPLETE_TOKENS : List String :=
  ["current-password", "new-password", "one-time-code", "cc-name",
   "cc-given-name", "cc-additional-name", "cc-family-name", "cc-number",
   "cc-exp", "cc-exp-month", "cc-exp-year", "cc-csc", "cc-type",
   "transaction-amount", "transaction-currency", "bday", "bday-day",
   "bday-month", "bday-year", "sex", "tel", "tel-country-code",
   "tel-national", "tel-area-code", "tel-local", "tel-extension"]

/-- One atom of the `SENSITIVE_PATTERN` regular expression: a literal run, a
required single character out of a set (`('|’)`), an optional single
character out of a set (`[-_ ]?`, `s?`), or `\s*`. -/
inductive PatAtom where
  | lit (s : String)
  | oneOf (cs : List Char)
  | opt (cs : List Char)
  | wsStar
deriving DecidableEq, Repr

/-- `\s*` before a continuation `next`: try consuming zero or more
whitespace characters (all split points, i.e. the backtracking existential
semantics of a JavaScript regex). -/
def matchWsStar (next : List Char → Bool) : List Char → Bool
  | [] => next []
  | c :: t => next (c :: t) || (c.isWhitespace && matchWsStar next t)

/-- Does some prefix of `l` match the atom sequence (with backtracking, so
this is the existential matching semantics of a JavaScript regex)? -/
def matchAtoms : List PatAtom → List Char → Bool
  | [], _ => true
  | .lit s :: rest, l => s.data.isPrefixOf l && matchAtoms rest (l.drop s.data.length)
  | .oneOf cs :: rest, l =>
    match l with
    | c :: t => cs.contains c && matchAtoms rest t
    | [] => false
  | .opt cs :: rest, l =>
    (match l with
     | c :: t => cs.contains c && matchAtoms rest t
     | [] => false) || matchAtoms rest l
  | .wsStar :: rest, l => matchWsStar (matchAtoms rest) l

/-- Does the atom sequence match anywhere in `l` (regex `test`)? -/
def matchSomewhere (atoms : List PatAtom) : List Char → Bool
  | [] => matchAtoms atoms []
  | c :: t => matchAtoms atoms (c :: t) || matchSomewhere atoms t

/-- The alternatives of `SENSITIVE_PATTERN`
(`/(password|passcode|otp|one[-_ ]?time|2fa|mfa|token|security\s*code|verification\s*code|cvv|cvc|card\s*number|credit\s*card|debit\s*card|routing|iban|swift|ssn|social\s*security|tax\s*id|tin|ein|passport|driver('|’)s?\s*license|bank\s*account)/i`),
each written as an atom sequence over lower-case text. -/
def SENSITIVE_PATTERN_ALTS : List (List PatAtom) :=
  [[.lit "password"], [.lit "passcode"], [.lit "otp"],
   [.lit "one", .opt ['-', '_', ' '], .lit "time"],
   [.lit "2fa"], [.lit "mfa"], [.lit "token"],
   [.lit "security", .wsStar, .lit "code"],
   [.lit "verification", .wsStar, .lit "code"],
   [.lit "cvv"], [.lit "cvc"],
   [.lit "card", .wsStar, .lit "number"],
   [.lit "credit", .wsStar, .lit "card"],
   [.lit "debit", .wsStar, .lit "card"],
   [.lit "routing"], [.lit "iban"], [.lit "swift"], [.lit "ssn"],
   [.lit "social", .wsStar, .lit "security"],
   [.lit "tax", .wsStar, .lit "id"],
   [.lit "tin"], [.lit "ein"], [.lit "passport"],
   [.lit "driver", .oneOf ['\'', '’'], .opt ['s'], .wsStar, .lit "license"],
   [.lit "bank", .wsStar, .lit "account"]]

/-- `SENSITIVE_PATTERN.test(text)`: the `/i` flag is modelled by lower-casing
the text, every pattern alternative being lower-case already. -/
def sensitivePatternTest (text : String) : Bool :=
  SENSITIVE_PATTERN_ALTS.any (fun alt => matchSomewhere alt (strToLower text).data)

/-- The classifier's result record `{ sensitive, reason }`. -/
structure SensitivityResult where
  sensitive : Bool
  reason : String
deriving DecidableEq, Repr

/-- The live form-control element as the content script sees it.  Attribute
reads (`getAttribute`) yield `""` for a missing attribute; `labelText` is the
result of the DOM label resolution `getLabelText(el)`, `visible` the result
of `isVisible(el)`, and `uid` the stamped `dataset.affUid`. -/
structure PageElement where
  tagName : String
  type : String
  autocomplete : String
  ariaLabel : String
  name : String
  id : String
  placeholder : String
  required : Bool
  disabled : Bool
  readOnly : Bool
  visible : Bool
  uid : String
  options : List (String × String)
  labelText : String
deriving DecidableEq, Repr

/-- `getAutocompleteTokens(element)` of field-safety.js. -/
def getAutocompleteTokens (el : PageElement) : List String :=
  let autocomplete := strToLower (cleanText el.autocomplete)
  if autocomplete = "" then [] else wsSplitTokens autocomplete

/-- `getElementTextForSensitivity(element, label)` of field-safety.js. -/
def getElementTextForSensitivity (el : PageElement) (label : String) : String :=
  String.intercalate " "
    (([label, el.name, el.id, el.placeholder, el.ariaLabel].map cleanText).filter
      (fun s => s ≠ ""))

/-- `isSensitiveFieldElement(element, label)` of field-safety.js. -/
def isSensitiveFieldElement (el : PageElement) (label : String) : SensitivityResult :=
  let tag := strToLower el.tagName
  if tag = "" then ⟨false, ""⟩
  else
    let rule1 : Option SensitivityResult :=
      if tag = "input" then
        let cleanedType := strToLower (cleanText el.type)
        let inputType := if cleanedType = "" then "text" else cleanedType
        if inputType ∈ SENSITIVE_INPUT_TYPES then
          some ⟨true, "input type '" ++ inputType ++ "'"⟩
        else none
      else none
    match rule1 with
    | some r => r
    | none =>
      match (getAutocompleteTokens el).find?
          (fun token => token ∈ SENSITIVE_AUTOCOMPLETE_TOKENS) with
      | some matched => ⟨true, "autocomplete '" ++ matched ++ "'"⟩
      | none =>
        if sensitivePatternTest (getElementTextForSensitivity el label) then
          ⟨true, "field metadata matched sensitive pattern"⟩
        else ⟨false, ""⟩

/-- The detached field descriptor built by `getFieldDescriptor` and shipped
across the process boundary. -/
structure FieldDesc where
  uid : String
  tag : String
  type : String
  autocomplete : String
  ariaLabel : String
  name : String
  id : String
  placeholder : String
  label : String
  required : Bool
  sensitive : Bool
  sensitiveReason : String
  options : List String
deriving DecidableEq, Repr

/-- `isSensitiveFieldDescriptor(field)` of field-safety.js (the argument is
always an object here, so the non-object guard is not represented). -/
def isSensitiveFieldDescriptor (field : FieldDesc) : SensitivityResult :=
  let tag := strToLower (cleanText field.tag)
  let ty := strToLower (cleanText field.type)
  if tag = "input" ∧ ty ∈ SENSITIVE_INPUT_TYPES then
    ⟨true, "input type '" ++ ty ++ "'"⟩
  else
    let autocomplete := strToLower (cleanText field.autocomplete)
    let autocompleteTokens := if autocomplete = "" then [] else wsSplitTokens autocomplete
    match autocompleteTokens.find?
        (fun token => token ∈ SENSITIVE_AUTOCOMPLETE_TOKENS) with
    | some matched => ⟨true, "autocomplete '" ++ matched ++ "'"⟩
    | none =>
      let text := String.intercalate " "
        (([field.label, field.name, field.id, field.placeholder,
           field.ariaLabel].map cleanText).filter (fun s => s ≠ ""))
      if sensitivePatternTest text then
        ⟨true, "field metadata matched sensitive pattern"⟩
      else ⟨false, ""⟩

/-! ## Content script (src/unnamed/part_000): collection -/

/-- `shouldSkipInput(el)`: disabled, read-only or invisible elements, and
non-fillable input types, are skipped. -/
def shouldSkipInput (el : PageElement) : Bool :=
  if el.disabled || el.readOnly || !el.visible then true
  else if strToLower el.tagName = "input" then
    let inputType := strToLower (if el.type = "" then "text" else el.type)
    ["hidden", "submit", "button", "reset", "file", "image", "range",
     "color"].contains inputType
  else false

/-- `getFieldDescriptor(el)` (the `fieldMap.set` registry side effect is not
represented; `ensureFieldUid` is carried by the element's `uid` field and
`getLabelText` by its `labelText` field). -/
def getFieldDescriptor (el : PageElement) : FieldDesc :=
  let tag := strToLower el.tagName
  let label := el.labelText
  let sensitivity := isSensitiveFieldElement el label
  { uid := el.uid
    tag := tag
    type := strToLower el.type
    autocomplete := cleanText el.autocomplete
    ariaLabel := cleanText el.ariaLabel
    name := cleanText el.name
    id := cleanText el.id
    placeholder := cleanText el.placeholder
    label := label
    required := el.required
    sensitive := sensitivity.sensitive
    sensitiveReason := sensitivity.reason
    options :=
      if tag = "select" then
        ((el.options.map (fun o => cleanText (if o.1 = "" then o.2 else o.1))).filter
          (fun s => s ≠ "")).take 50
      else [] }

/-- `collectFields(includeSensitive)`: `document` is the list of `input`,
`textarea` and `select` elements in document order. -/
def collectFields (document : List PageElement) (includeSensitive : Bool) :
    List FieldDesc :=
  let elements := document.filter (fun el => !shouldSkipInput el)
  let descriptors := elements.map getFieldDescriptor
  if includeSensitive then descriptors
  else descriptors.filter (fun field => !field.sensitive)

/-! ## Content script: fillField -/

/-- One `<option>` of a select: its `textContent` and its `value`. -/
structure SelectOpt where
  text : String
  value : String
deriving DecidableEq, Repr

/-- One radio input of the page: its `name` attribute, its `value`, and the
result of `getLabelText` on it. -/
structure RadioInput where
  name : String
  value : String
  labelText : String
deriving DecidableEq, Repr

/-- The control `fillField` writes to, with the state the write reads. -/
inductive FillTarget where
  | selectEl (options : List SelectOpt)
  | inputCheckbox
  | inputRadio (name : String)
  | textLike (tag : String) (type : String)
deriving DecidableEq, Repr

/-- The synthetic notification events `fillField` dispatches. -/
inductive DomEvent where
  | inputEv
  | changeEv
deriving DecidableEq, Repr

/-- The single DOM mutation a successful `fillField` call performs;
`noEffect` on every failure path (each `return { ok: false }` in the source
happens before any write). -/
inductive FillEffect where
  | noEffect
  | selectSet (value : String)
  | checkboxSet (checked : Bool)
  | radioSet (radio : RadioInput)
  | nativeSet (value : String)
deriving DecidableEq, Repr

/-- The result of `fillField`: the returned `{ ok, error }`, the DOM
mutation performed and the events dispatched. -/
structure FillResult where
  ok : Bool
  error : String
  effect : FillEffect
  events : List DomEvent
deriving DecidableEq, Repr

/-- A failing `fillField` return: no mutation, no events. -/
def fillFail (msg : String) : FillResult :=
  ⟨false, msg, .noEffect, []⟩

/-- `fillField(uid, value, allowSensitive)`.  `found` is whether
`fieldMap.get(uid)` yielded a live element, `sensitive` the result of
re-classifying that element at apply time, `docRadios` the page's radio
inputs in document order (`querySelectorAll` filters them by name). -/
def fillField (found : Bool) (sensitive : Bool) (allowSensitive : Bool)
    (target : FillTarget) (docRadios : List RadioInput) (value : String) :
    FillResult :=
  if !found then fillFail "Field not found in page context."
  else if sensitive && !allowSensitive then
    fillFail "Refusing to fill sensitive field without explicit confirmation."
  else
    let trimmedValue := cleanText value
    if trimmedValue = "" then fillFail "Empty value was provided."
    else
      match target with
      | .selectEl options =>
        let normalized := strToLower trimmedValue
        let exactOption := options.find? (fun opt =>
          strToLower (cleanText (if opt.text = "" then opt.value else opt.text))
              = normalized
            || strToLower (cleanText opt.value) = normalized)
        let chosenOption :=
          match exactOption with
          | some o => some o
          | none => options.find? (fun opt =>
              let candidate :=
                strToLower (cleanText (if opt.text = "" then opt.value else opt.text))
              strIncludes candidate normalized || strIncludes normalized candidate)
        match chosenOption with
        | none => fillFail "No matching option found for select field."
        | some opt => ⟨true, "", .selectSet opt.value, [.changeEv]⟩
      | .inputCheckbox =>
        let truthy := strToLower trimmedValue ∈ ["true", "yes", "1", "checked"]
        let falsy := strToLower trimmedValue ∈ ["false", "no", "0", "unchecked"]
        if !truthy && !falsy then
          fillFail "Checkbox value must resolve to true/false."
        else ⟨true, "", .checkboxSet truthy, [.changeEv]⟩
      | .inputRadio radioName =>
        if radioName = "" then fillFail "Radio button has no name group."
        else
          let radios := docRadios.filter (fun r => r.name = radioName)
          let normalizedValue := strToLower trimmedValue
          let matchedRadio := radios.find? (fun r =>
            let label := strToLower r.labelText
            let rv := strToLower (cleanText r.value)
            label = normalizedValue || rv = normalizedValue
              || strIncludes label normalizedValue)
          match matchedRadio with
          | none => fillFail "No matching radio option found."
          | some r => ⟨true, "", .radioSet r, [.changeEv]⟩
      | .textLike _ _ => ⟨true, "", .nativeSet trimmedValue, [.inputEv, .changeEv]⟩

/-- The checkbox's `checked` state after a `fillField` call that targeted it
(unchanged unless the call's one mutation was a checkbox write). -/
def checkboxAfter (checked : Bool) (r : FillResult) : Bool :=
  match r.effect with
  | .checkboxSet b => b
  | _ => checked

/-! ## background.js: fingerprinting, batching, retry, orchestration -/

/-- `AUTOFILL_BATCH_SIZE`. -/
def AUTOFILL_BATCH_SIZE : Nat := 4

/-- `AUTOFILL_RETRIES`. -/
def AUTOFILL_RETRIES : Nat := 3

/-- The normalized tuple `fieldFingerprint` serializes with
`JSON.stringify`; two keys are equal exactly when all components are (the
fixed-shape serialization is injective). -/
structure FingerKey where
  label : String
  name : String
  id : String
  placeholder : String
  type : String
  tag : String
  options : List String
deriving DecidableEq, Repr

/-- `fieldFingerprint(field)`: trim-lowercase normalization of the content
fields, options truncated to 50; `uid` is not read. -/
def fieldFingerprint (field : FieldDesc) : FingerKey :=
  { label := strToLower (jsTrim field.label)
    name := strToLower (jsTrim field.name)
    id := strToLower (jsTrim field.id)
    placeholder := strToLower (jsTrim field.placeholder)
    type := strToLower (jsTrim field.type)
    tag := strToLower (jsTrim field.tag)
    options := (field.options.map (fun o => strToLower (jsTrim o))).take 50 }

/-- `chunkArray(values, size)`.  The source's loop is only ever run with
`size = AUTOFILL_BATCH_SIZE` (it would not terminate on `size = 0`, so the
model returns `[]` there). -/
def chunkArray (values : List α) (size : Nat) : List (List α) :=
  match size, values with
  | _, [] => []
  | 0, _ => []
  | s + 1, v :: rest =>
    (v :: rest).take (s + 1) :: chunkArray ((v :: rest).drop (s + 1)) (s + 1)
termination_by values.length
decreasing_by simp; omega

/-- The fingerprint dedup of `processAutofill` (lines 640–648): a `Map`
keyed by fingerprint keeps the first field seen per key; `uniqueFields` is
its values in insertion order.  `seen` is the key set accumulated so far. -/
def dedupeGo (seen : List FingerKey) : List FieldDesc → List FieldDesc
  | [] => []
  | field :: rest =>
    let key := fieldFingerprint field
    if key ∈ seen then dedupeGo seen rest
    else field :: dedupeGo (key :: seen) rest

/-- `uniqueFields` of `processAutofill`. -/
def dedupeByFingerprint (fields : List FieldDesc) : List FieldDesc :=
  dedupeGo [] fields

/-- A JavaScript `Map` with insertion order, modelled as an association
list: `set` overwrites in place or appends. -/
def setAssoc [DecidableEq κ] : List (κ × ν) → κ → ν → List (κ × ν)
  | [], k, v => [(k, v)]
  | (k', v') :: rest, k, v =>
    if k' = k then (k, v) :: rest else (k', v') :: setAssoc rest k v

/-- `Map.get`, as an `Option`. -/
def getAssoc [DecidableEq κ] : List (κ × ν) → κ → Option ν
  | [], _ => none
  | (k', v') :: rest, k => if k' = k then some v' else getAssoc rest k

/-- A JSON value as far as the answer extraction inspects it: a string or
anything else. -/
inductive JsonValue where
  | strVal (s : String)
  | otherVal
deriving DecidableEq, Repr

/-- `cleanModelAnswer`'s quote stripping, `replace(/^"|"$/g, "")`: one
leading and one trailing double quote are removed. -/
def stripWrappingQuotes (s : String) : String :=
  let l1 := if s.data.head? = some '"' then s.data.tail else s.data
  let l2 := if l1.getLast? = some '"' then l1.dropLast else l1
  ⟨l2⟩

/-- `cleanModelAnswer(answer)`: trim, strip wrapping quotes, and map the
empty string and the (case-insensitive) `NOT_FOUND` sentinel to `""`. -/
def cleanModelAnswer (answer : String) : String :=
  let stripped := stripWrappingQuotes (jsTrim answer)
  if stripped = "" then ""
  else if strToLower stripped = "not_found" then ""
  else stripped

/-- The answer map built at the end of a successful
`queryFieldBatchAnswers` call (lines 423–428): `parsed` is the JSON object
extracted from the model output, read as a partial map from key to value. -/
def queryFieldBatchAnswersMap (fields : List FieldDesc)
    (parsed : String → Option JsonValue) : List (String × String) :=
  fields.foldl
    (fun answersByUid field =>
      let raw :=
        match parsed field.uid with
        | some (.strVal s) => s
        | _ => ""
      setAssoc answersByUid field.uid (cleanModelAnswer raw))
    []

/-- An error thrown inside the batch pipeline: `message`, and the `status`
property when one was attached (`createHttpError`, the 408 timeout); plain
errors such as "Model response format was invalid." have none. -/
structure JsError where
  message : String
  status : Option Nat
deriving DecidableEq, Repr

/-- `shouldRetry(error)`: `Number(undefined)` is `NaN` and every comparison
with it is false, so an error without a status is never retried. -/
def shouldRetry (e : JsError) : Bool :=
  match e.status with
  | some status => status = 408 || status = 429 || decide (500 ≤ status)
  | none => false

/-- The trace of one `withRetry` run: its outcome, how many times `work`
was called, and the backoff delays slept between attempts. -/
structure RetryTrace (α : Type) where
  result : Except JsError α
  attemptsMade : Nat
  delays : List Nat
deriving Repr

/-- The loop body of `withRetry` from attempt number `attempt` on.  `work n`
is the outcome of the n-th call (1-based); `jitter n` stands for the
`Math.floor(Math.random() * 120)` drawn after the n-th failure. -/
def withRetryGo (work : Nat → Except JsError α) (jitter : Nat → Nat)
    (attempts : Nat) (attempt : Nat) : RetryTrace α :=
  match work attempt with
  | .ok v => ⟨.ok v, attempt, []⟩
  | .error e =>
    if _h : attempts ≤ attempt ∨ shouldRetry e = false then ⟨.error e, attempt, []⟩
    else
      let delay := min 5000 (400 * 2 ^ (attempt - 1)) + jitter attempt
      let tail := withRetryGo work jitter attempts (attempt + 1)
      ⟨tail.result, tail.attemptsMade, delay :: tail.delays⟩
termination_by attempts - attempt
decreasing_by omega

/-- `withRetry(work, attempts)`. -/
def withRetry (work : Nat → Except JsError α) (jitter : Nat → Nat)
    (attempts : Nat := AUTOFILL_RETRIES) : RetryTrace α :=
  withRetryGo work jitter attempts 1

/-- The two per-fingerprint maps the batch phase of `processAutofill`
accumulates. -/
structure FingMaps where
  answerByFingerprint : List (FingerKey × String)
  errorByFingerprint : List (FingerKey × String)
deriving Repr

/-- One iteration of the batch worker (lines 653–670): a resolved batch
records `answersByUid[field.uid] || ""` per fingerprint, a failed one (after
`withRetry` gave up) records the error message per fingerprint. -/
def recordBatch (maps : FingMaps) (batch : List FieldDesc)
    (outcome : Except String (String → Option String)) : FingMaps :=
  match outcome with
  | .ok answersByUid =>
    { maps with
      answerByFingerprint := batch.foldl
        (fun acc field =>
          setAssoc acc (fieldFingerprint field) ((answersByUid field.uid).getD ""))
        maps.answerByFingerprint }
  | .error message =>
    { maps with
      errorByFingerprint := batch.foldl
        (fun acc field => setAssoc acc (fieldFingerprint field) message)
        maps.errorByFingerprint }

/-- The whole batch phase.  `oracle b` is the settled outcome of
`withRetry(() => queryFieldBatchAnswers(..., b))`: the answers-by-uid map,
or the error message kept for every field of the batch.  Batches run under
`runWithConcurrency`, but every fingerprint lives in exactly one batch, so
the two maps are independent of completion order and the sequential fold is
an equivalent schedule. -/
def runBatches (batches : List (List FieldDesc))
    (oracle : List FieldDesc → Except String (String → Option String)) : FingMaps :=
  batches.foldl (fun maps batch => recordBatch maps batch (oracle batch)) ⟨[], []⟩

/-- What the application loop (lines 675–722) does with one field. -/
inductive FieldOutcome where
  | errorSkipped (message : String)
  | notFoundSkipped
  | fillAttempted (value : String) (filled : Bool)
deriving DecidableEq, Repr

/-- One iteration of the application loop: the error map is consulted
first, then an empty answer (`answerByFingerprint.get(key) || ""`) is "not
found", otherwise the answer is sent to the page (`fillOk` abstracts the
page's `FILL_FORM_FIELD` response).  The source's `key` and `answer` consts
are inlined. -/
def applyOutcome (maps : FingMaps) (fillOk : FieldDesc → String → Bool)
    (field : FieldDesc) : FieldOutcome :=
  match getAssoc maps.errorByFingerprint (fieldFingerprint field) with
  | some message => .errorSkipped message
  | none =>
    if (getAssoc maps.answerByFingerprint (fieldFingerprint field)).getD "" = "" then
      .notFoundSkipped
    else
      .fillAttempted ((getAssoc maps.answerByFingerprint (fieldFingerprint field)).getD "")
        (fillOk field ((getAssoc maps.answerByFingerprint (fieldFingerprint field)).getD ""))

/-- Whether an outcome is counted `skipped` by the loop (everything except
a fill the page acknowledged). -/
def outcomeSkipped : FieldOutcome → Bool
  | .errorSkipped _ => true
  | .notFoundSkipped => true
  | .fillAttempted _ filled => !filled

/-- The application phase over the original, non-deduplicated field list. -/
def applicationPhase (fields : List FieldDesc) (maps : FingMaps)
    (fillOk : FieldDesc → String → Bool) : List FieldOutcome :=
  fields.map (applyOutcome maps fillOk)

/-- Modelled from the spec: the radio selection rule as claim C8 and §4.3 of
the spec word it — "selects the first radio in that name group whose label or
value matches (exact, then substring) the target value, case-insensitively".
A first pass looks for an exact label or value match, only then a second
pass accepts substring matches.  This definition exists to be compared with
the source's `fillField`, which uses a single pass. -/
def claimRadioSelect (radios : List RadioInput) (normalizedValue : String) :
    Option RadioInput :=
  let exactRadio := radios.find? (fun r =>
    strToLower r.labelText = normalizedValue
      || strToLower (cleanText r.value) = normalizedValue)
  match exactRadio with
  | some r => some r
  | none => radios.find? (fun r =>
      strIncludes (strToLower r.labelText) normalizedValue
        || strIncludes (strToLower (cleanText r.value)) normalizedValue)

/-! ## Helper lemmas: characters -/

theorem charToNat_inj (a b : Char) : a = b ↔ a.toNat = b.toNat := by
  constructor
  · rintro rfl; rfl
  · intro h; exact Char.ext (UInt32.ext h)

theorem toNat_ofNat_valid (n : Nat) (h : n.isValidChar) :
    (Char.ofNat n).toNat = n := by
  simp [Char.ofNat, h, Char.toNat, Char.ofNatAux]
  change (UInt32.ofNat' n _).toNat = n
  simp [UInt32.ofNat', UInt32.toNat]

theorem lowerChar_toNat (c : Char) :
    (lowerChar c).toNat =
      if 65 ≤ c.toNat ∧ c.toNat ≤ 90 then c.toNat + 32 else c.toNat := by
  unfold lowerChar
  split_ifs with h
  · exact toNat_ofNat_valid _ (Or.inl (by omega))
  · rfl

theorem isWhitespace_iff_toNat (c : Char) :
    c.isWhitespace = true ↔
      (c.toNat = 32 ∨ c.toNat = 9 ∨ c.toNat = 13 ∨ c.toNat = 10) := by
  simp only [Char.isWhitespace, Bool.or_eq_true, decide_eq_true_eq]
  rw [charToNat_inj c ' ', charToNat_inj c '\t', charToNat_inj c '\r',
    charToNat_inj c '\n']
  show ((c.toNat = 32 ∨ c.toNat = 9) ∨ c.toNat = 13) ∨ c.toNat = 10 ↔ _
  tauto

theorem lowerChar_isWhitespace (c : Char) :
    (lowerChar c).isWhitespace = c.isWhitespace := by
  have h1 := lowerChar_toNat c
  by_cases hw : c.isWhitespace = true
  · have := (isWhitespace_iff_toNat c).mp hw
    have hr : ¬(65 ≤ c.toNat ∧ c.toNat ≤ 90) := by omega
    unfold lowerChar
    rw [if_neg hr]
  · by_cases hl : (lowerChar c).isWhitespace = true
    · exfalso
      have h3 := (isWhitespace_iff_toNat (lowerChar c)).mp hl
      have h2 := (isWhitespace_iff_toNat c).not.mp hw
      rw [h1] at h3
      by_cases h : 65 ≤ c.toNat ∧ c.toNat ≤ 90
      · rw [if_pos h] at h3; omega
      · rw [if_neg h] at h3; exact h2 h3
    · simp only [Bool.not_eq_true] at hw hl
      rw [hw, hl]

theorem lowerChar_of_not_upper (c : Char) (h : ¬(65 ≤ c.toNat ∧ c.toNat ≤ 90)) :
    lowerChar c = c := by
  unfold lowerChar; rw [if_neg h]

theorem lowerChar_idem (c : Char) : lowerChar (lowerChar c) = lowerChar c := by
  have h1 := lowerChar_toNat c
  by_cases h : 65 ≤ c.toNat ∧ c.toNat ≤ 90
  · rw [if_pos h] at h1
    exact lowerChar_of_not_upper _ (by rw [h1]; omega)
  · rw [lowerChar_of_not_upper c h, lowerChar_of_not_upper c h]

/-! ## Helper lemmas: `cleanText` is idempotent and commutes with
lower-casing -/

/-- Adjacent characters are not both whitespace. -/
def NoWsPair (a b : Char) : Prop :=
  ¬(a.isWhitespace = true ∧ b.isWhitespace = true)

theorem collapse_mem_space :
    ∀ (l : List Char) (b : Bool), ∀ c ∈ collapseWsAux b l,
      c.isWhitespace = true → c = ' ' := by
  intro l
  induction l with
  | nil => intro b c hc; simp [collapseWsAux] at hc
  | cons d rest ih =>
    intro b c hc hw
    by_cases hd : d.isWhitespace = true
    · cases b with
      | true =>
        simp only [collapseWsAux, hd, if_true] at hc
        exact ih true c hc hw
      | false =>
        simp only [collapseWsAux, hd, if_true, Bool.false_eq_true, if_false,
          List.mem_cons] at hc
        rcases hc with rfl | hc
        · rfl
        · exact ih true c hc hw
    · simp only [collapseWsAux, hd, if_false, Bool.false_eq_true, List.mem_cons] at hc
      rcases hc with rfl | hc
      · exact absurd hw hd
      · exact ih false c hc hw

theorem collapse_head_true :
    ∀ (l : List Char) (c : Char), (collapseWsAux true l).head? = some c →
      c.isWhitespace = false := by
  intro l
  induction l with
  | nil => intro c hc; simp [collapseWsAux] at hc
  | cons d rest ih =>
    intro c hc
    by_cases hd : d.isWhitespace = true
    · simp only [collapseWsAux, hd, if_true] at hc
      exact ih c hc
    · simp only [collapseWsAux, hd, Bool.false_eq_true, if_false, List.head?_cons,
        Option.some.injEq] at hc
      subst hc
      exact Bool.not_eq_true _ |>.mp hd

theorem collapse_chain :
    ∀ (l : List Char) (b : Bool), List.Chain' NoWsPair (collapseWsAux b l) := by
  intro l
  induction l with
  | nil => intro b; simp [collapseWsAux]
  | cons d rest ih =>
    intro b
    by_cases hd : d.isWhitespace = true
    · cases b with
      | true => simpa only [collapseWsAux, hd, if_true] using ih true
      | false =>
        simp only [collapseWsAux, hd, if_true, Bool.false_eq_true, if_false]
        rw [List.chain'_cons']
        refine ⟨?_, ih true⟩
        intro y hy
        have := collapse_head_true rest y hy
        intro hcon
        rw [this] at hcon
        exact absurd hcon.2 (by simp)
    · simp only [collapseWsAux, hd, Bool.false_eq_true, if_false]
      rw [List.chain'_cons']
      refine ⟨?_, ih false⟩
      intro y hy hcon
      exact hd hcon.1

theorem collapse_id :
    ∀ (l : List Char),
      (∀ c ∈ l, c.isWhitespace = true → c = ' ') →
      List.Chain' NoWsPair l →
      ∀ b : Bool, (b = true → ∀ c, l.head? = some c → c.isWhitespace = false) →
      collapseWsAux b l = l := by
  intro l
  induction l with
  | nil => intro _ _ b _; cases b <;> rfl
  | cons d rest ih =>
    intro hso hch b hb
    by_cases hd : d.isWhitespace = true
    · cases b with
      | true => exact absurd (hb rfl d (by rfl)) (by rw [hd]; simp)
      | false =>
        simp only [collapseWsAux, hd, if_true, Bool.false_eq_true, if_false]
        have hrest : collapseWsAux true rest = rest := by
          refine ih (fun c hc => hso c (List.mem_cons_of_mem _ hc)) hch.tail true ?_
          intro _ c hc
          rw [List.chain'_cons'] at hch
          have := hch.1 c hc
          unfold NoWsPair at this
          rw [hd] at this
          by_cases hcw : c.isWhitespace = true
          · exact absurd ⟨rfl, hcw⟩ this
          · exact Bool.not_eq_true _ |>.mp hcw
        rw [hrest, hso d (List.mem_cons_self _ _) hd]
    · simp only [collapseWsAux, hd, Bool.false_eq_true, if_false]
      rw [ih (fun c hc => hso c (List.mem_cons_of_mem _ hc)) hch.tail false (by simp)]

theorem dropWhile_head_not :
    ∀ (l : List Char) (c : Char),
      (l.dropWhile Char.isWhitespace).head? = some c → c.isWhitespace = false := by
  intro l
  induction l with
  | nil => intro c hc; simp [List.dropWhile] at hc
  | cons d rest ih =>
    intro c hc
    rw [List.dropWhile_cons] at hc
    by_cases hd : d.isWhitespace = true
    · rw [if_pos hd] at hc; exact ih c hc
    · rw [if_neg hd] at hc
      simp only [List.head?_cons, Option.some.injEq] at hc
      subst hc
      exact Bool.not_eq_true _ |>.mp hd

theorem dropWhile_id_of_head (l : List Char)
    (h : ∀ c, l.head? = some c → c.isWhitespace = false) :
    l.dropWhile Char.isWhitespace = l := by
  cases l with
  | nil => rfl
  | cons d rest =>
    rw [List.dropWhile_cons, if_neg]
    rw [h d (by rfl)]
    simp

theorem suffix_getLast? {l1 l2 : List Char} (h : l1 <:+ l2) (hne : l1 ≠ []) :
    l1.getLast? = l2.getLast? := by
  obtain ⟨t, rfl⟩ := h
  rw [List.getLast?_append]
  cases hl : l1.getLast? with
  | none => exact absurd (List.getLast?_eq_none_iff.mp hl) hne
  | some a => rfl

theorem jsTrimList_head (l : List Char) :
    ∀ c, (jsTrimList l).head? = some c → c.isWhitespace = false := by
  intro c hc
  unfold jsTrimList at hc
  rw [List.head?_reverse] at hc
  set d1 := l.dropWhile Char.isWhitespace with hd1
  set d2 := d1.reverse.dropWhile Char.isWhitespace with hd2
  have hne : d2 ≠ [] := by
    intro hnil
    rw [hnil] at hc
    simp at hc
  rw [suffix_getLast? (List.dropWhile_suffix _) hne, List.getLast?_reverse] at hc
  exact dropWhile_head_not l c hc

theorem jsTrimList_last (l : List Char) :
    ∀ c, (jsTrimList l).getLast? = some c → c.isWhitespace = false := by
  intro c hc
  unfold jsTrimList at hc
  rw [List.getLast?_reverse] at hc
  exact dropWhile_head_not _ c hc

theorem jsTrimList_id (l : List Char)
    (hh : ∀ c, l.head? = some c → c.isWhitespace = false)
    (hl : ∀ c, l.getLast? = some c → c.isWhitespace = false) :
    jsTrimList l = l := by
  unfold jsTrimList
  rw [dropWhile_id_of_head l hh]
  rw [dropWhile_id_of_head l.reverse (by
    intro c hc
    rw [List.head?_reverse] at hc
    exact hl c hc)]
  exact List.reverse_reverse l

theorem jsTrimList_subset (l : List Char) : ∀ c ∈ jsTrimList l, c ∈ l := by
  intro c hc
  unfold jsTrimList at hc
  rw [List.mem_reverse] at hc
  have hc2 := (List.dropWhile_suffix _).mem hc
  rw [List.mem_reverse] at hc2
  exact (List.dropWhile_suffix _).mem hc2

theorem chain_noWsPair_reverse {l : List Char} (h : List.Chain' NoWsPair l) :
    List.Chain' NoWsPair l.reverse := by
  rw [List.chain'_reverse]
  exact h.imp (fun a b hab => by unfold NoWsPair flip at *; tauto)

theorem jsTrimList_chain {l : List Char} (h : List.Chain' NoWsPair l) :
    List.Chain' NoWsPair (jsTrimList l) := by
  unfold jsTrimList
  apply chain_noWsPair_reverse
  apply List.Chain'.suffix _ (List.dropWhile_suffix _)
  apply chain_noWsPair_reverse
  exact h.suffix (List.dropWhile_suffix _)

/-- `cleanText` over character lists. -/
theorem cleanList_idem (l : List Char) :
    jsTrimList (collapseWsAux false (jsTrimList (collapseWsAux false l))) =
      jsTrimList (collapseWsAux false l) := by
  set r := jsTrimList (collapseWsAux false l) with hr
  have hso : ∀ c ∈ r, c.isWhitespace = true → c = ' ' := by
    intro c hc
    exact collapse_mem_space l false c (jsTrimList_subset _ c hc)
  have hch : List.Chain' NoWsPair r := jsTrimList_chain (collapse_chain l false)
  have hcoll : collapseWsAux false r = r :=
    collapse_id r hso hch false (by simp)
  rw [hcoll]
  exact jsTrimList_id r (jsTrimList_head _) (jsTrimList_last _)

theorem cleanText_idem (s : String) : cleanText (cleanText s) = cleanText s := by
  unfold cleanText jsTrim
  exact congrArg String.mk (cleanList_idem s.data)

theorem map_lowerChar_collapse :
    ∀ (l : List Char) (b : Bool),
      collapseWsAux b (l.map lowerChar) = (collapseWsAux b l).map lowerChar := by
  intro l
  induction l with
  | nil => intro b; rfl
  | cons d rest ih =>
    intro b
    by_cases hd : d.isWhitespace = true
    · have hld : (lowerChar d).isWhitespace = true := by
        rw [lowerChar_isWhitespace]; exact hd
      cases b with
      | true =>
        simp only [List.map_cons, collapseWsAux, hd, hld, if_true]
        exact ih true
      | false =>
        simp only [List.map_cons, collapseWsAux, hd, hld, if_true, if_false]
        rw [ih true]
        rfl
    · have hld : ¬(lowerChar d).isWhitespace = true := by
        rw [lowerChar_isWhitespace]; exact hd
      simp only [List.map_cons, collapseWsAux, hd, hld, Bool.false_eq_true, if_false]
      rw [ih false]

theorem map_lowerChar_dropWhile (l : List Char) :
    (l.map lowerChar).dropWhile Char.isWhitespace =
      (l.dropWhile Char.isWhitespace).map lowerChar := by
  induction l with
  | nil => rfl
  | cons d rest ih =>
    rw [List.map_cons, List.dropWhile_cons, List.dropWhile_cons,
      lowerChar_isWhitespace]
    by_cases hd : d.isWhitespace = true
    · rw [if_pos hd, if_pos hd]; exact ih
    · rw [if_neg hd, if_neg hd, List.map_cons]

theorem map_lowerChar_jsTrimList (l : List Char) :
    jsTrimList (l.map lowerChar) = (jsTrimList l).map lowerChar := by
  unfold jsTrimList
  rw [map_lowerChar_dropWhile, ← List.map_reverse, map_lowerChar_dropWhile,
    ← List.map_reverse]

theorem cleanText_strToLower (s : String) :
    cleanText (strToLower s) = strToLower (cleanText s) := by
  unfold cleanText strToLower jsTrim
  apply congrArg String.mk
  show jsTrimList (collapseWsAux false (s.data.map lowerChar)) = _
  rw [map_lowerChar_collapse, map_lowerChar_jsTrimList]

theorem strToLower_idem (s : String) :
    strToLower (strToLower s) = strToLower s := by
  unfold strToLower
  apply congrArg String.mk
  show (s.data.map lowerChar).map lowerChar = _
  rw [List.map_map]
  exact List.map_congr_left (fun c _ => lowerChar_idem c)

theorem strToLower_eq_empty_iff (s : String) : strToLower s = "" ↔ s = "" := by
  constructor
  · intro h
    obtain ⟨d⟩ := s
    have h3 : d.map lowerChar = [] := congrArg String.data h
    rw [List.map_eq_nil_iff] at h3
    rw [h3]
  · rintro rfl; rfl

/-! ## Claim C5 -/

/-- C5: for every form-control element (a real DOM element: non-empty,
whitespace-free tag name) and the descriptor extracted from it by
`getFieldDescriptor` — which carries the element's tag, type, autocomplete,
name, id, placeholder, ariaLabel and label — the two call shapes of the
sensitivity classifier agree: `isSensitiveFieldElement(element, label)` and
`isSensitiveFieldDescriptor(descriptor)` return the same sensitive boolean
and the same reason string. -/
theorem sensitivity_classifier_two_shapes_agree (el : PageElement)
    (h1 : el.tagName ≠ "") (h2 : cleanText el.tagName = el.tagName) :
    isSensitiveFieldDescriptor (getFieldDescriptor el) =
      isSensitiveFieldElement el el.labelText := by
  have htag : strToLower (cleanText (strToLower el.tagName)) =
      strToLower el.tagName := by
    rw [cleanText_strToLower, h2, strToLower_idem]
  have hty : strToLower (cleanText (strToLower el.type)) =
      strToLower (cleanText el.type) := by
    rw [cleanText_strToLower, strToLower_idem]
  have hne : strToLower el.tagName ≠ "" := fun h => h1 ((strToLower_eq_empty_iff _).mp h)
  unfold isSensitiveFieldDescriptor isSensitiveFieldElement getFieldDescriptor
  unfold getAutocompleteTokens getElementTextForSensitivity
  dsimp only
  simp only [List.map_cons, List.map_nil]
  simp only [htag, hty, cleanText_idem]
  rw [if_neg hne]
  by_cases hinput : strToLower el.tagName = "input"
  · rw [if_pos hinput]
    by_cases hpw : strToLower (cleanText el.type) = "password"
    · rw [hpw]
      have : ("password" : String) ∈ SENSITIVE_INPUT_TYPES := by decide
      rw [if_pos ⟨hinput, this⟩]
      rw [if_neg (by decide : ¬("password" : String) = "")]
      rw [if_pos this]
    · have hmem : ¬ strToLower (cleanText el.type) ∈ SENSITIVE_INPUT_TYPES := by
        simp only [SENSITIVE_INPUT_TYPES, List.mem_singleton]
        exact hpw
      rw [if_neg (fun hc => hmem hc.2)]
      have hmem2 : ¬ ((if strToLower (cleanText el.type) = "" then "text"
          else strToLower (cleanText el.type)) ∈ SENSITIVE_INPUT_TYPES) := by
        split_ifs with he
        · decide
        · exact hmem
      rw [if_neg hmem2]
  · rw [if_neg (fun hc => hinput hc.1), if_neg hinput]

/-- A concrete password input whose name also matches the metadata pattern
(rule 1 must win in both shapes). -/
def elementC5 : PageElement :=
  ⟨"input", "password", "", "", "card number", "", "", false, false, false,
    true, "u1", [], "Card Number"⟩

theorem sensitivity_classifier_two_shapes_agree_witness :
    elementC5.tagName ≠ "" ∧ cleanText elementC5.tagName = elementC5.tagName ∧
      isSensitiveFieldDescriptor (getFieldDescriptor elementC5) =
        isSensitiveFieldElement elementC5 elementC5.labelText :=
  ⟨by decide, by decide,
    sensitivity_classifier_two_shapes_agree elementC5 (by decide) (by decide)⟩

/-! ## Claim C9 -/

/-- C9: `fieldFingerprint` is a pure function of the descriptor fields
label, name, id, placeholder, type, tag and options (each trimmed and
lowercased, options truncated to the first 50) and is independent of `uid`:
two descriptors agreeing on the normalized fields share a fingerprint even
with different uids. -/
theorem fieldFingerprint_content_pure (f g : FieldDesc)
    (hlabel : strToLower (jsTrim f.label) = strToLower (jsTrim g.label))
    (hname : strToLower (jsTrim f.name) = strToLower (jsTrim g.name))
    (hid : strToLower (jsTrim f.id) = strToLower (jsTrim g.id))
    (hph : strToLower (jsTrim f.placeholder) = strToLower (jsTrim g.placeholder))
    (hty : strToLower (jsTrim f.type) = strToLower (jsTrim g.type))
    (htag : strToLower (jsTrim f.tag) = strToLower (jsTrim g.tag))
    (hopts : (f.options.map (fun o => strToLower (jsTrim o))).take 50 =
      (g.options.map (fun o => strToLower (jsTrim o))).take 50) :
    fieldFingerprint f = fieldFingerprint g ∧
      (∀ u : String, fieldFingerprint { f with uid := u } = fieldFingerprint f) := by
  constructor
  · unfold fieldFingerprint
    rw [hlabel, hname, hid, hph, hty, htag, hopts]
  · intro u; rfl

/-- A repeated "Email" field: same content with different spacing and
casing, different uids. -/
def fieldC9a : FieldDesc :=
  ⟨"aff-1", "input", "text", "", "", "email", "", "", " Email ", false, false,
    "", []⟩

/-- See `fieldC9a`. -/
def fieldC9b : FieldDesc :=
  ⟨"aff-2", "input", "TEXT", "", "", "EMAIL", "", "", "email", true, false,
    "", []⟩

theorem fieldFingerprint_content_pure_witness :
    strToLower (jsTrim fieldC9a.label) = strToLower (jsTrim fieldC9b.label) ∧
      fieldC9a.uid ≠ fieldC9b.uid ∧
      fieldFingerprint fieldC9a = fieldFingerprint fieldC9b :=
  ⟨by decide, by decide,
    (fieldFingerprint_content_pure fieldC9a fieldC9b (by decide) (by decide)
      (by decide) (by decide) (by decide) (by decide) (by decide)).1⟩

/-! ## Claim C2 -/

theorem chunkArray_length (s : Nat) :
    ∀ (l : List α), (chunkArray l (s + 1)).length = (l.length + s) / (s + 1) := by
  intro l
  generalize hn : l.length = n
  induction n using Nat.strong_induction_on generalizing l with
  | _ n ih =>
    cases l with
    | nil =>
      simp only [List.length_nil] at hn
      subst hn
      simp only [chunkArray, List.length_nil]
      rw [Nat.div_eq_of_lt (by omega)]
    | cons v rest =>
      simp only [List.length_cons] at hn
      subst hn
      rw [chunkArray]
      simp only [List.length_cons]
      have hlen : ((v :: rest).drop (s + 1)).length = rest.length + 1 - (s + 1) := by
        rw [List.length_drop, List.length_cons]
      have hlt : ((v :: rest).drop (s + 1)).length < rest.length + 1 := by
        rw [hlen]; omega
      rw [ih _ hlt _ rfl, hlen]
      have hm : rest.length + 1 + s = (rest.length + 1 - 1) + (s + 1) := by omega
      rw [hm, Nat.add_div_right _ (Nat.succ_pos s)]
      congr 1
      by_cases hc : rest.length + 1 ≤ s + 1
      · rw [show rest.length + 1 - (s + 1) = 0 by omega]
        rw [Nat.div_eq_of_lt (by omega), Nat.div_eq_of_lt (by omega)]
      · congr 1
        omega

theorem dedupeGo_fingerprints (l : List FieldDesc) :
    ∀ (seen : List FingerKey),
      ((dedupeGo seen l).map fieldFingerprint).Nodup ∧
      ∀ k, k ∈ (dedupeGo seen l).map fieldFingerprint ↔
        (k ∈ l.map fieldFingerprint ∧ k ∉ seen) := by
  induction l with
  | nil => intro seen; simp [dedupeGo]
  | cons f rest ih =>
    intro seen
    by_cases hkey : fieldFingerprint f ∈ seen
    · simp only [dedupeGo, if_pos hkey]
      refine ⟨(ih seen).1, ?_⟩
      intro k
      rw [(ih seen).2 k]
      simp only [List.map_cons, List.mem_cons]
      constructor
      · tauto
      · rintro ⟨rfl | hk, hns⟩
        · exact absurd hkey hns
        · exact ⟨hk, hns⟩
    · simp only [dedupeGo, if_neg hkey]
      have ihs := ih (fieldFingerprint f :: seen)
      constructor
      · simp only [List.map_cons, List.nodup_cons]
        refine ⟨?_, ihs.1⟩
        intro hmem
        have := (ihs.2 _).mp hmem
        exact this.2 (List.mem_cons_self _ _)
      · intro k
        simp only [List.map_cons, List.mem_cons, ihs.2 k]
        constructor
        · rintro (rfl | ⟨hk, hns⟩)
          · exact ⟨Or.inl rfl, hkey⟩
          · exact ⟨Or.inr hk, fun hc => hns (Or.inr hc)⟩
        · rintro ⟨rfl | hk, hns⟩
          · exact Or.inl rfl
          · by_cases hkf : k = fieldFingerprint f
            · exact Or.inl hkf
            · refine Or.inr ⟨hk, fun hc => ?_⟩
              rcases hc with hc | hc
              · exact hkf hc
              · exact hns hc

/-- The dedup pass keeps exactly one representative per distinct
fingerprint. -/
theorem dedupe_length (fields : List FieldDesc) :
    (dedupeByFingerprint fields).length =
      (fields.map fieldFingerprint).dedup.length := by
  have hnd : ((dedupeByFingerprint fields).map fieldFingerprint).Nodup :=
    (dedupeGo_fingerprints fields []).1
  have hmem : ∀ k, k ∈ (dedupeByFingerprint fields).map fieldFingerprint ↔
      k ∈ fields.map fieldFingerprint := by
    intro k
    unfold dedupeByFingerprint
    rw [(dedupeGo_fingerprints fields []).2 k]
    simp
  have e1 : (dedupeByFingerprint fields).length =
      ((dedupeByFingerprint fields).map fieldFingerprint).length :=
    (List.length_map _ _).symm
  rw [e1]
  rw [← List.toFinset_card_of_nodup hnd,
    ← List.toFinset_card_of_nodup (fields.map fieldFingerprint).nodup_dedup]
  congr 1
  ext k
  simp only [List.mem_toFinset, List.mem_dedup]
  exact hmem k

/-- C2: for every collected field list, `processAutofill` deduplicates by
fingerprint before batching, and the number of retrieval batches (one
`withRetry`-wrapped `queryFieldBatchAnswers` call each) equals
⌈distinct fingerprints / B⌉ with B = `AUTOFILL_BATCH_SIZE` = 4 — hence is
at most that ceiling regardless of the total field count. -/
theorem processAutofill_batch_count (fields : List FieldDesc) :
    (chunkArray (dedupeByFingerprint fields) AUTOFILL_BATCH_SIZE).length =
      ((fields.map fieldFingerprint).dedup.length + (AUTOFILL_BATCH_SIZE - 1)) /
        AUTOFILL_BATCH_SIZE ∧
    (chunkArray (dedupeByFingerprint fields) AUTOFILL_BATCH_SIZE).length ≤
      ((fields.map fieldFingerprint).dedup.length + (AUTOFILL_BATCH_SIZE - 1)) /
        AUTOFILL_BATCH_SIZE := by
  have h : (chunkArray (dedupeByFingerprint fields) (3 + 1)).length =
      ((dedupeByFingerprint fields).length + 3) / (3 + 1) :=
    chunkArray_length 3 _
  rw [dedupe_length] at h
  exact ⟨h, le_of_eq h⟩

/-! ## Claim C10 -/

/-- The string the answer extraction reads off one parsed JSON value:
`typeof raw === "string" ? raw : ""`. -/
def rawModelValue (v : Option JsonValue) : String :=
  match v with
  | some (.strVal s) => s
  | _ => ""

theorem getAssoc_setAssoc_same [DecidableEq κ] :
    ∀ (l : List (κ × ν)) (k : κ) (v : ν), getAssoc (setAssoc l k v) k = some v := by
  intro l k v
  induction l with
  | nil => simp [setAssoc, getAssoc]
  | cons p rest ih =>
    by_cases hk : p.1 = k
    · simp [setAssoc, hk, getAssoc]
    · cases p
      simp_all [setAssoc, hk, getAssoc]

theorem getAssoc_setAssoc_ne [DecidableEq κ] :
    ∀ (l : List (κ × ν)) (k k' : κ) (v : ν), k ≠ k' →
      getAssoc (setAssoc l k v) k' = getAssoc l k' := by
  intro l k k' v hne
  induction l with
  | nil => simp [setAssoc, getAssoc, hne]
  | cons p rest ih =>
    cases p with
    | mk pk pv =>
      by_cases hk : pk = k
      · subst hk
        simp [setAssoc, getAssoc, hne]
      · simp [setAssoc, hk, getAssoc, ih]

theorem answersMap_lookup (val : String → String) :
    ∀ (fields : List FieldDesc) (acc : List (String × String)) (f : FieldDesc),
      (f ∈ fields ∨ getAssoc acc f.uid = some (val f.uid)) →
      getAssoc (fields.foldl (fun a fld => setAssoc a fld.uid (val fld.uid)) acc)
        f.uid = some (val f.uid) := by
  intro fields
  induction fields with
  | nil =>
    intro acc f h
    rcases h with h | h
    · exact absurd h (List.not_mem_nil f)
    · exact h
  | cons g rest ih =>
    intro acc f h
    rw [List.foldl_cons]
    apply ih
    rcases h with h | h
    · rcases List.mem_cons.mp h with rfl | hf
      · exact Or.inr (getAssoc_setAssoc_same _ _ _)
      · exact Or.inl hf
    · by_cases hu : g.uid = f.uid
      · rw [hu]
        exact Or.inr (getAssoc_setAssoc_same _ _ _)
      · rw [getAssoc_setAssoc_ne _ _ _ _ hu]
        exact Or.inr h

/-- C10: on a successful batch response the answer map is total over the
batch: every input field's uid is present, its value the cleaned model
answer for that uid; a missing or non-string JSON value yields the cleaned
empty string, and a cleaned answer that is empty or the case-insensitive
`NOT_FOUND` sentinel (after trimming and quote stripping) becomes `""` — in
the application phase an empty answer is reported "not found", never as an
error. -/
theorem queryFieldBatchAnswers_total_map (fields : List FieldDesc)
    (parsed : String → Option JsonValue) (f : FieldDesc) (hf : f ∈ fields) :
    getAssoc (queryFieldBatchAnswersMap fields parsed) f.uid =
      some (cleanModelAnswer (rawModelValue (parsed f.uid))) ∧
    (∀ u, parsed u = none ∨ parsed u = some .otherVal →
      cleanModelAnswer (rawModelValue (parsed u)) = "") ∧
    (∀ s, stripWrappingQuotes (jsTrim s) = "" ∨
        strToLower (stripWrappingQuotes (jsTrim s)) = "not_found" →
      cleanModelAnswer s = "") ∧
    (∀ (maps : FingMaps) (fillOk : FieldDesc → String → Bool) (fld : FieldDesc),
      getAssoc maps.errorByFingerprint (fieldFingerprint fld) = none →
      getAssoc maps.answerByFingerprint (fieldFingerprint fld) = some "" →
      applyOutcome maps fillOk fld = .notFoundSkipped) := by
  refine ⟨?_, ?_, ?_, ?_⟩
  · exact answersMap_lookup
      (fun u => cleanModelAnswer (rawModelValue (parsed u))) fields [] f (Or.inl hf)
  · intro u h
    rcases h with h | h <;> rw [h] <;> rfl
  · intro s h
    unfold cleanModelAnswer
    rcases h with h | h
    · rw [if_pos h]
    · by_cases he : stripWrappingQuotes (jsTrim s) = ""
      · rw [if_pos he]
      · rw [if_neg he, if_pos h]
  · intro maps fillOk fld herr hans
    simp only [applyOutcome]
    rw [herr, hans]
    rfl

/-- A two-field batch: one uid answered with a quoted string, one with the
`NOT_FOUND` sentinel. -/
def parsedC10 : String → Option JsonValue :=
  fun u => if u = "aff-1" then some (.strVal " \"Jane\" ")
    else if u = "aff-2" then some (.strVal "not_found") else none

theorem queryFieldBatchAnswers_total_map_witness :
    fieldC9a ∈ [fieldC9a, fieldC9b] ∧
      getAssoc (queryFieldBatchAnswersMap [fieldC9a, fieldC9b] parsedC10)
          fieldC9a.uid =
        some (cleanModelAnswer (rawModelValue (parsedC10 fieldC9a.uid))) ∧
      cleanModelAnswer (rawModelValue (parsedC10 fieldC9a.uid)) = "Jane" ∧
      cleanModelAnswer (rawModelValue (parsedC10 fieldC9b.uid)) = "" :=
  ⟨by decide,
    (queryFieldBatchAnswers_total_map [fieldC9a, fieldC9b] parsedC10 fieldC9a
      (by decide)).1,
    by decide, by decide⟩

/-! ## Claim C4 -/

theorem withRetryGo_attempt_le (work : Nat → Except JsError α) (jitter : Nat → Nat)
    (attempts : Nat) : ∀ (attempt : Nat),
    attempt ≤ (withRetryGo work jitter attempts attempt).attemptsMade := by
  intro attempt
  generalize hfuel : attempts - attempt = fuel
  induction fuel using Nat.strong_induction_on generalizing attempt with
  | _ fuel ih =>
    rw [withRetryGo]
    cases hw : work attempt with
    | ok v => simp
    | error e =>
      simp only
      split
      · simp
      · simp only
        have := ih (attempts - (attempt + 1)) (by omega) (attempt + 1) rfl
        subst hfuel
        omega

theorem withRetryGo_made_le (work : Nat → Except JsError α) (jitter : Nat → Nat)
    (attempts : Nat) : ∀ (attempt : Nat), attempt ≤ attempts →
    (withRetryGo work jitter attempts attempt).attemptsMade ≤ attempts := by
  intro attempt
  generalize hfuel : attempts - attempt = fuel
  induction fuel using Nat.strong_induction_on generalizing attempt with
  | _ fuel ih =>
    intro hle
    rw [withRetryGo]
    cases hw : work attempt with
    | ok v => simpa using hle
    | error e =>
      simp only
      split
      · simpa using hle
      · rename_i hcond
        simp only
        have hlt : attempt < attempts := by omega
        exact ih (attempts - (attempt + 1)) (by omega) (attempt + 1) rfl (by omega)

theorem withRetryGo_retried_retryable (work : Nat → Except JsError α)
    (jitter : Nat → Nat) (attempts : Nat) : ∀ (attempt k : Nat), attempt ≤ k →
    k < (withRetryGo work jitter attempts attempt).attemptsMade →
    ∃ e, work k = .error e ∧ shouldRetry e = true := by
  intro attempt
  generalize hfuel : attempts - attempt = fuel
  induction fuel using Nat.strong_induction_on generalizing attempt with
  | _ fuel ih =>
    intro k hak hk
    rw [withRetryGo] at hk
    cases hw : work attempt with
    | ok v => rw [hw] at hk; simp at hk; omega
    | error e =>
      rw [hw] at hk
      simp only at hk
      split at hk
      · simp at hk; omega
      · rename_i hcond
        push_neg at hcond
        simp only at hk
        rcases Nat.eq_or_lt_of_le hak with rfl | hlt
        · exact ⟨e, hw, Bool.ne_false_iff.mp hcond.2⟩
        · exact ih (attempts - (attempt + 1)) (by omega) (attempt + 1) rfl k hlt hk

theorem withRetryGo_delays (work : Nat → Except JsError α)
    (jitter : Nat → Nat) (attempts : Nat) : ∀ (attempt : Nat),
    (withRetryGo work jitter attempts attempt).delays =
      (List.range ((withRetryGo work jitter attempts attempt).attemptsMade - attempt)).map
        (fun i => min 5000 (400 * 2 ^ (attempt + i - 1)) + jitter (attempt + i)) := by
  intro attempt
  generalize hfuel : attempts - attempt = fuel
  induction fuel using Nat.strong_induction_on generalizing attempt with
  | _ fuel ih =>
    rw [withRetryGo]
    cases hw : work attempt with
    | ok v => simp
    | error e =>
      simp only
      split
      · simp
      · rename_i hcond
        simp only
        have hge := withRetryGo_attempt_le work jitter attempts (attempt + 1)
        have ihe := ih (attempts - (attempt + 1)) (by omega) (attempt + 1) rfl
        rw [ihe]
        set made := (withRetryGo work jitter attempts (attempt + 1)).attemptsMade with hmade
        have h1 : made - attempt = (made - (attempt + 1)) + 1 := by omega
        rw [h1, List.range_succ_eq_map, List.map_cons, List.map_map]
        congr 1
        apply List.map_congr_left
        intro i _
        simp only [Function.comp_apply]
        have e2 : attempt + Nat.succ i = attempt + 1 + i := by omega
        rw [e2]

/-- C4: every batch call is attempted at most `AUTOFILL_RETRIES` = 3 times;
every attempt that was followed by another had failed with a retryable
error (status 408 — the timeout mapping —, 429, or >= 500); the delay slept
before attempt n+1 is `min(5000, 400 * 2^(n-1))` plus the non-negative
jitter; a first-attempt error that is not retryable (no status — e.g.
invalid model output —, 401/403, other 4xx) is thrown at once, with no
second attempt and no delay. -/
theorem withRetry_retry_policy (work : Nat → Except JsError α) (jitter : Nat → Nat) :
    (withRetry work jitter AUTOFILL_RETRIES).attemptsMade ≤ AUTOFILL_RETRIES ∧
    (∀ k, 1 ≤ k → k < (withRetry work jitter AUTOFILL_RETRIES).attemptsMade →
      ∃ e, work k = .error e ∧ shouldRetry e = true) ∧
    ((withRetry work jitter AUTOFILL_RETRIES).delays =
      (List.range ((withRetry work jitter AUTOFILL_RETRIES).attemptsMade - 1)).map
        (fun n => min 5000 (400 * 2 ^ n) + jitter (n + 1))) ∧
    (∀ e, work 1 = .error e → shouldRetry e = false →
      (withRetry work jitter AUTOFILL_RETRIES).result = .error e ∧
      (withRetry work jitter AUTOFILL_RETRIES).attemptsMade = 1 ∧
      (withRetry work jitter AUTOFILL_RETRIES).delays = []) ∧
    (∀ e, shouldRetry e = true ↔
      (e.status = some 408 ∨ e.status = some 429 ∨ ∃ s, e.status = some s ∧ 500 ≤ s)) ∧
    (∀ m, shouldRetry ⟨m, none⟩ = false ∧ shouldRetry ⟨m, some 401⟩ = false ∧
      shouldRetry ⟨m, some 403⟩ = false ∧ shouldRetry ⟨m, some 404⟩ = false) := by
  refine ⟨?_, ?_, ?_, ?_, ?_, ?_⟩
  · exact withRetryGo_made_le work jitter 3 1 (by omega)
  · exact fun k => withRetryGo_retried_retryable work jitter 3 1 k
  · show (withRetryGo work jitter 3 1).delays =
      (List.range ((withRetryGo work jitter 3 1).attemptsMade - 1)).map
        (fun n => min 5000 (400 * 2 ^ n) + jitter (n + 1))
    rw [withRetryGo_delays work jitter 3 1]
    apply List.map_congr_left
    intro i _
    have e1 : 1 + i - 1 = i := by omega
    have e2 : 1 + i = i + 1 := by omega
    rw [e1, e2]
  · intro e hw hsr
    unfold withRetry
    rw [withRetryGo, hw]
    simp only
    rw [dif_pos (Or.inr hsr)]
    exact ⟨rfl, rfl, rfl⟩
  · intro e
    unfold shouldRetry
    cases hs : e.status with
    | none => simp
    | some s =>
      simp only [Bool.or_eq_true, decide_eq_true_eq, Option.some.injEq]
      constructor
      · rintro ((h | h) | h)
        · exact Or.inl (by omega)
        · exact Or.inr (Or.inl (by omega))
        · exact Or.inr (Or.inr ⟨s, rfl, h⟩)
      · rintro (h | h | ⟨t, ht, hle⟩)
        · exact Or.inl (Or.inl (by omega))
        · exact Or.inl (Or.inr (by omega))
        · cases ht; exact Or.inr hle
  · intro m
    refine ⟨rfl, ?_, ?_, ?_⟩ <;> simp [shouldRetry]

/-- A batch that is rate limited, then hits a 5xx, then succeeds. -/
def workC4 : Nat → Except JsError String :=
  fun n =>
    if n = 1 then .error ⟨"Rate limited by OpenAI. Please retry shortly.", some 429⟩
    else if n = 2 then .error ⟨"OpenAI service error. Please try again.", some 503⟩
    else .ok "done"

theorem withRetry_retry_policy_witness :
    (1 ≤ 1 ∧ 1 < (withRetry workC4 (fun _ => 42) AUTOFILL_RETRIES).attemptsMade) ∧
    (∃ e, workC4 1 = .error e ∧ shouldRetry e = true) ∧
    (withRetry workC4 (fun _ => 42) AUTOFILL_RETRIES).attemptsMade ≤ AUTOFILL_RETRIES :=
  ⟨⟨by omega, by
      show 1 < (withRetryGo workC4 (fun _ => 42) 3 1).attemptsMade
      rw [withRetryGo]
      simp only [workC4, shouldRetry]
      norm_num
      rw [withRetryGo]
      simp only [workC4, shouldRetry]
      norm_num
      rw [withRetryGo]
      simp [workC4]⟩,
    (withRetry_retry_policy workC4 (fun _ => 42)).2.1 1 (by omega) (by
      show 1 < (withRetryGo workC4 (fun _ => 42) 3 1).attemptsMade
      rw [withRetryGo]
      simp only [workC4, shouldRetry]
      norm_num
      rw [withRetryGo]
      simp only [workC4, shouldRetry]
      norm_num
      rw [withRetryGo]
      simp [workC4]),
    (withRetry_retry_policy workC4 (fun _ => 42)).1⟩

/-! ## Claims C6, C7, C8: fillField -/

/-- Every failing `fillField` return happens before any DOM write: no
mutation, no synthetic event (each `return { ok: false }` precedes the
writes in the source). -/
theorem fillField_fail_no_mutation (found sensitive allowSensitive : Bool)
    (target : FillTarget) (docRadios : List RadioInput) (value : String) :
    (fillField found sensitive allowSensitive target docRadios value).ok = false →
    (fillField found sensitive allowSensitive target docRadios value).effect = .noEffect ∧
    (fillField found sensitive allowSensitive target docRadios value).events = [] := by
  unfold fillField fillFail
  dsimp only
  repeat' split
  all_goals first
  | (intro _; exact ⟨rfl, rfl⟩)
  | (intro h; simp at h)

/-- C7: the checkbox branch of `fillField` accepts exactly the token
vocabulary true/yes/1/checked (sets checked) and false/no/0/unchecked
(clears it), case-insensitively on the trimmed value; any other value
returns an error and leaves the checkbox unchanged — and on every failure
path of `fillField` no DOM mutation and no synthetic event occurs. -/
theorem fillField_checkbox_vocabulary :
    (∀ (found sensitive allowSensitive : Bool) (target : FillTarget)
        (docRadios : List RadioInput) (value : String),
      (fillField found sensitive allowSensitive target docRadios value).ok = false →
      (fillField found sensitive allowSensitive target docRadios value).effect
          = .noEffect ∧
      (fillField found sensitive allowSensitive target docRadios value).events = []) ∧
    (∀ (allowSensitive checked : Bool) (value : String),
      strToLower (cleanText value) ∉ (["true", "yes", "1", "checked"] : List String) →
      strToLower (cleanText value) ∉ (["false", "no", "0", "unchecked"] : List String) →
      (fillField true false allowSensitive .inputCheckbox [] value).ok = false ∧
      checkboxAfter checked (fillField true false allowSensitive .inputCheckbox [] value)
        = checked ∧
      (fillField true false allowSensitive .inputCheckbox [] value).events = []) ∧
    (∀ (allowSensitive : Bool) (value : String),
      strToLower (cleanText value) ∈ (["true", "yes", "1", "checked"] : List String) →
      fillField true false allowSensitive .inputCheckbox [] value =
        ⟨true, "", .checkboxSet true, [.changeEv]⟩) ∧
    (∀ (allowSensitive : Bool) (value : String),
      strToLower (cleanText value) ∈ (["false", "no", "0", "unchecked"] : List String) →
      fillField true false allowSensitive .inputCheckbox [] value =
        ⟨true, "", .checkboxSet false, [.changeEv]⟩) := by
  refine ⟨fillField_fail_no_mutation, ?_, ?_, ?_⟩
  · intro allowSensitive checked value hnt hnf
    have h1 : (fillField true false allowSensitive .inputCheckbox [] value).ok = false := by
      unfold fillField fillFail
      dsimp only
      by_cases he : cleanText value = ""
      · rw [if_pos he]
        rfl
      · rw [if_neg he, decide_eq_false hnt, decide_eq_false hnf]
        rfl
    refine ⟨h1, ?_, (fillField_fail_no_mutation _ _ _ _ _ _ h1).2⟩
    unfold checkboxAfter
    rw [(fillField_fail_no_mutation _ _ _ _ _ _ h1).1]
  · intro allowSensitive value ht
    have he : cleanText value ≠ "" := by
      intro hc
      rw [hc] at ht
      exact absurd ht (by decide)
    unfold fillField
    dsimp only
    rw [if_neg he, decide_eq_true ht]
    rfl
  · intro allowSensitive value hf
    have he : cleanText value ≠ "" := by
      intro hc
      rw [hc] at hf
      exact absurd hf (by decide)
    have hnt : strToLower (cleanText value) ∉
        (["true", "yes", "1", "checked"] : List String) := by
      simp only [List.mem_cons, List.not_mem_nil, or_false] at hf ⊢
      rcases hf with h | h | h | h <;> rw [h] <;> decide
    unfold fillField
    dsimp only
    rw [if_neg he, decide_eq_true hf, decide_eq_false hnt]
    rfl

theorem fillField_checkbox_vocabulary_witness :
    (strToLower (cleanText "yes") ∈ (["true", "yes", "1", "checked"] : List String) ∧
      fillField true false false .inputCheckbox [] "yes" =
        ⟨true, "", .checkboxSet true, [.changeEv]⟩) ∧
    (strToLower (cleanText "maybe") ∉ (["true", "yes", "1", "checked"] : List String) ∧
      strToLower (cleanText "maybe") ∉ (["false", "no", "0", "unchecked"] : List String) ∧
      (fillField true false false .inputCheckbox [] "maybe").ok = false ∧
      checkboxAfter true (fillField true false false .inputCheckbox [] "maybe") = true) :=
  ⟨⟨by decide, fillField_checkbox_vocabulary.2.2.1 false "yes" (by decide)⟩,
   ⟨by decide, by decide,
    (fillField_checkbox_vocabulary.2.1 false true "maybe" (by decide) (by decide)).1,
    (fillField_checkbox_vocabulary.2.1 false true "maybe" (by decide) (by decide)).2.1⟩⟩

/-- C6: the select branch of `fillField` matches the cleaned, lower-cased
value against each option's text (falling back to its value) and against
its value; a first pass takes the first exact match, a second pass the
first option whose candidate text contains the value or is contained in
it; with no match it fails with the no-matching-option error.  In
particular "canada" against ["United States", "Canada"] selects
"Canada". -/
theorem fillField_select_matching (options : List SelectOpt) (value : String)
    (allowSensitive : Bool) (hnv : cleanText value ≠ "") :
    (∀ opt, options.find? (fun opt =>
        strToLower (cleanText (if opt.text = "" then opt.value else opt.text))
            = strToLower (cleanText value)
          || strToLower (cleanText opt.value) = strToLower (cleanText value)) = some opt →
      fillField true false allowSensitive (.selectEl options) [] value =
        ⟨true, "", .selectSet opt.value, [.changeEv]⟩) ∧
    (∀ opt, options.find? (fun opt =>
        strToLower (cleanText (if opt.text = "" then opt.value else opt.text))
            = strToLower (cleanText value)
          || strToLower (cleanText opt.value) = strToLower (cleanText value)) = none →
      options.find? (fun opt =>
        strIncludes (strToLower (cleanText (if opt.text = "" then opt.value else opt.text)))
            (strToLower (cleanText value))
          || strIncludes (strToLower (cleanText value))
            (strToLower (cleanText (if opt.text = "" then opt.value else opt.text)))) = some opt →
      fillField true false allowSensitive (.selectEl options) [] value =
        ⟨true, "", .selectSet opt.value, [.changeEv]⟩) ∧
    (options.find? (fun opt =>
        strToLower (cleanText (if opt.text = "" then opt.value else opt.text))
            = strToLower (cleanText value)
          || strToLower (cleanText opt.value) = strToLower (cleanText value)) = none →
      options.find? (fun opt =>
        strIncludes (strToLower (cleanText (if opt.text = "" then opt.value else opt.text)))
            (strToLower (cleanText value))
          || strIncludes (strToLower (cleanText value))
            (strToLower (cleanText (if opt.text = "" then opt.value else opt.text)))) = none →
      fillField true false allowSensitive (.selectEl options) [] value =
        fillFail "No matching option found for select field.") ∧
    fillField true false false
      (.selectEl [⟨"United States", "United States"⟩, ⟨"Canada", "Canada"⟩]) [] "canada" =
      ⟨true, "", .selectSet "Canada", [.changeEv]⟩ := by
  refine ⟨?_, ?_, ?_, by decide⟩
  · intro opt hexact
    unfold fillField
    dsimp only
    rw [if_neg hnv, hexact]
    rfl
  · intro opt hexact hsub
    unfold fillField
    dsimp only
    rw [if_neg hnv, hexact, hsub]
    rfl
  · intro hexact hsub
    unfold fillField
    dsimp only
    rw [if_neg hnv, hexact, hsub]
    rfl

theorem fillField_select_matching_witness :
    cleanText "canada" ≠ "" ∧
    [SelectOpt.mk "United States" "United States",
      SelectOpt.mk "Canada" "Canada"].find? (fun opt =>
        strToLower (cleanText (if opt.text = "" then opt.value else opt.text))
            = strToLower (cleanText "canada")
          || strToLower (cleanText opt.value) = strToLower (cleanText "canada")) =
      some (SelectOpt.mk "Canada" "Canada") ∧
    fillField true false false
      (.selectEl [⟨"United States", "United States"⟩, ⟨"Canada", "Canada"⟩]) [] "canada" =
      ⟨true, "", .selectSet "Canada", [.changeEv]⟩ :=
  ⟨by decide, by decide,
    (fillField_select_matching
      [⟨"United States", "United States"⟩, ⟨"Canada", "Canada"⟩] "canada" false
      (by decide)).1 (SelectOpt.mk "Canada" "Canada") (by decide)⟩

/-- A radio whose label merely contains the target value, listed before an
exact match. -/
def radioC8a : RadioInput := ⟨"g", "v1", "Email me"⟩

/-- The exact match "me", listed second. -/
def radioC8b : RadioInput := ⟨"g", "me", "me"⟩

/-- C8 counterexample: the source selects `radioC8a` — whose label only
contains "me" — although the exact match `radioC8b` exists in the same name
group, so "exact match preferred, then substring" (the claim and §4.3, as
captured by `claimRadioSelect`) is false of the code: the radio branch is a
single `find` pass. -/
theorem fillField_radio_exact_preference_counterexample :
    fillField true false false (.inputRadio "g") [radioC8a, radioC8b] "me" =
      ⟨true, "", .radioSet radioC8a, [.changeEv]⟩ ∧
    claimRadioSelect ([radioC8a, radioC8b].filter (fun r => r.name = "g"))
        (strToLower (cleanText "me")) = some radioC8b ∧
    radioC8a ≠ radioC8b ∧
    strToLower radioC8a.labelText ≠ strToLower (cleanText "me") ∧
    strToLower (cleanText radioC8a.value) ≠ strToLower (cleanText "me") ∧
    strToLower radioC8b.labelText = strToLower (cleanText "me") :=
  ⟨by decide, by decide, by decide, by decide, by decide, by decide⟩

/-- C8 (amended): for every radio input with a non-empty name and a
non-empty cleaned value, `fillField` selects in one pass the first radio of
the name group whose label equals the value, whose cleaned radio value
equals the value, or whose label contains the value (case-insensitively) —
exact matches are not preferred over earlier label-substring matches, and
value-substring matches are not considered — and fails with the
no-matching-radio error when no radio in the group satisfies this. -/
theorem fillField_radio_single_pass (docRadios : List RadioInput)
    (radioName : String) (value : String) (allowSensitive : Bool)
    (hname : radioName ≠ "") (hnv : cleanText value ≠ "") :
    (∀ r, (docRadios.filter (fun r => r.name = radioName)).find? (fun r =>
        strToLower r.labelText = strToLower (cleanText value)
          || strToLower (cleanText r.value) = strToLower (cleanText value)
          || strIncludes (strToLower r.labelText) (strToLower (cleanText value)))
          = some r →
      fillField true false allowSensitive (.inputRadio radioName) docRadios value =
        ⟨true, "", .radioSet r, [.changeEv]⟩) ∧
    ((docRadios.filter (fun r => r.name = radioName)).find? (fun r =>
        strToLower r.labelText = strToLower (cleanText value)
          || strToLower (cleanText r.value) = strToLower (cleanText value)
          || strIncludes (strToLower r.labelText) (strToLower (cleanText value)))
          = none →
      fillField true false allowSensitive (.inputRadio radioName) docRadios value =
        fillFail "No matching radio option found.") := by
  constructor
  · intro r hr
    unfold fillField
    dsimp only
    rw [if_neg hnv, if_neg hname, hr]
    rfl
  · intro hr
    unfold fillField
    dsimp only
    rw [if_neg hnv, if_neg hname, hr]
    rfl

theorem fillField_radio_single_pass_witness :
    ("g" : String) ≠ "" ∧ cleanText "me" ≠ "" ∧
    ([radioC8a, radioC8b].filter (fun r => r.name = "g")).find? (fun r =>
        strToLower r.labelText = strToLower (cleanText "me")
          || strToLower (cleanText r.value) = strToLower (cleanText "me")
          || strIncludes (strToLower r.labelText) (strToLower (cleanText "me")))
        = some radioC8a ∧
    fillField true false false (.inputRadio "g") [radioC8a, radioC8b] "me" =
      ⟨true, "", .radioSet radioC8a, [.changeEv]⟩ :=
  ⟨by decide, by decide, by decide,
    (fillField_radio_single_pass [radioC8a, radioC8b] "g" "me" false
      (by decide) (by decide)).1 radioC8a (by decide)⟩

/-! ## Claim C1 -/

/-- C1: for every page state, `collectFields(false)` contains no sensitive
descriptor and equals `collectFields(true)` filtered to the non-sensitive
ones; every retained element's descriptor is present in
`collectFields(true)` regardless, and is absent from `collectFields(false)`
exactly when its classifier result is sensitive. -/
theorem collectFields_sensitive_partition (document : List PageElement) :
    (∀ d ∈ collectFields document false, d.sensitive = false) ∧
    collectFields document false =
      (collectFields document true).filter (fun field => !field.sensitive) ∧
    (∀ el ∈ document, shouldSkipInput el = false →
      getFieldDescriptor el ∈ collectFields document true ∧
      (getFieldDescriptor el ∈ collectFields document false ↔
        (getFieldDescriptor el).sensitive = false)) ∧
    (∀ d, d ∈ collectFields document false ↔
      (d ∈ collectFields document true ∧ d.sensitive = false)) := by
  have hunf_true : collectFields document true =
      (document.filter (fun el => !shouldSkipInput el)).map getFieldDescriptor := rfl
  have hunf_false : collectFields document false =
      ((document.filter (fun el => !shouldSkipInput el)).map getFieldDescriptor).filter
        (fun field => !field.sensitive) := rfl
  refine ⟨?_, rfl, ?_, ?_⟩
  · intro d hd
    rw [hunf_false] at hd
    have h2 := (List.mem_filter.mp hd).2
    simpa using h2
  · intro el hel hskip
    have hmem : getFieldDescriptor el ∈ collectFields document true := by
      rw [hunf_true]
      exact List.mem_map_of_mem _ (List.mem_filter.mpr ⟨hel, by rw [hskip]; rfl⟩)
    refine ⟨hmem, ?_⟩
    rw [hunf_false, List.mem_filter]
    constructor
    · intro h
      simpa using h.2
    · intro h
      rw [hunf_true] at hmem
      exact ⟨hmem, by simp [h]⟩
  · intro d
    rw [hunf_true, hunf_false, List.mem_filter]
    simp

/-- A password input: classified sensitive by rule 1. -/
def elementC1pw : PageElement :=
  ⟨"input", "password", "", "", "pwd", "", "", false, false, false, true,
    "u1", [], "Password"⟩

/-- A plain text input: not sensitive. -/
def elementC1txt : PageElement :=
  ⟨"input", "text", "", "", "first_name", "", "", false, false, false, true,
    "u2", [], "First name"⟩

theorem collectFields_sensitive_partition_witness :
    elementC1pw ∈ [elementC1pw, elementC1txt] ∧
    shouldSkipInput elementC1pw = false ∧
    (getFieldDescriptor elementC1pw).sensitive = true ∧
    getFieldDescriptor elementC1pw ∈ collectFields [elementC1pw, elementC1txt] true ∧
    getFieldDescriptor elementC1pw ∉ collectFields [elementC1pw, elementC1txt] false ∧
    getFieldDescriptor elementC1txt ∈ collectFields [elementC1pw, elementC1txt] false :=
  ⟨by decide, by decide, by decide,
    ((collectFields_sensitive_partition [elementC1pw, elementC1txt]).2.2.1 elementC1pw
      (by decide) (by decide)).1,
    fun h => absurd
      (((collectFields_sensitive_partition [elementC1pw, elementC1txt]).2.2.1 elementC1pw
        (by decide) (by decide)).2.mp h) (by decide),
    (((collectFields_sensitive_partition [elementC1pw, elementC1txt]).2.2.1 elementC1txt
      (by decide) (by decide)).2).mpr (by decide)⟩

/-! ## Claim C3 -/

theorem chunkArray_join (s : Nat) :
    ∀ (l : List α), (chunkArray l (s + 1)).flatten = l := by
  intro l
  generalize hn : l.length = n
  induction n using Nat.strong_induction_on generalizing l with
  | _ n ih =>
    cases l with
    | nil => rw [chunkArray]; rfl
    | cons v rest =>
      simp only [List.length_cons] at hn
      subst hn
      rw [chunkArray]
      rw [List.flatten_cons]
      have hlt : ((v :: rest).drop (s + 1)).length < rest.length + 1 := by
        rw [List.length_drop, List.length_cons]; omega
      rw [ih _ hlt _ rfl]
      exact List.take_append_drop _ _

theorem getAssoc_batch_set_not_mem (keyf : FieldDesc → FingerKey)
    (valf : FieldDesc → String) (k : FingerKey) :
    ∀ (batch : List FieldDesc) (acc : List (FingerKey × String)),
      k ∉ batch.map keyf →
      getAssoc (batch.foldl (fun a fld => setAssoc a (keyf fld) (valf fld)) acc) k =
        getAssoc acc k := by
  intro batch
  induction batch with
  | nil => intro acc _; rfl
  | cons g rest ih =>
    intro acc hk
    simp only [List.map_cons, List.mem_cons] at hk
    push_neg at hk
    rw [List.foldl_cons, ih _ hk.2, getAssoc_setAssoc_ne _ _ _ _ (fun hc => hk.1 hc.symm)]

theorem getAssoc_batch_set_mem (keyf : FieldDesc → FingerKey)
    (valf : FieldDesc → String) :
    ∀ (batch : List FieldDesc) (acc : List (FingerKey × String)) (g : FieldDesc),
      (batch.map keyf).Nodup → g ∈ batch →
      getAssoc (batch.foldl (fun a fld => setAssoc a (keyf fld) (valf fld)) acc)
        (keyf g) = some (valf g) := by
  intro batch
  induction batch with
  | nil => intro acc g _ hg; exact absurd hg (List.not_mem_nil g)
  | cons h rest ih =>
    intro acc g hnd hg
    simp only [List.map_cons, List.nodup_cons] at hnd
    rw [List.foldl_cons]
    rcases List.mem_cons.mp hg with rfl | hgr
    · by_cases hgr2 : keyf g ∈ rest.map keyf
      · exact absurd hgr2 hnd.1
      · rw [getAssoc_batch_set_not_mem _ _ _ _ _ hgr2,
          getAssoc_setAssoc_same]
    · exact ih _ g hnd.2 hgr

theorem runBatches_preserve (oracle : List FieldDesc → Except String (String → Option String))
    (k : FingerKey) :
    ∀ (batches : List (List FieldDesc)) (maps : FingMaps),
      k ∉ batches.flatten.map fieldFingerprint →
      getAssoc (batches.foldl (fun m b => recordBatch m b (oracle b)) maps).answerByFingerprint k =
        getAssoc maps.answerByFingerprint k ∧
      getAssoc (batches.foldl (fun m b => recordBatch m b (oracle b)) maps).errorByFingerprint k =
        getAssoc maps.errorByFingerprint k := by
  intro batches
  induction batches with
  | nil => intro maps _; exact ⟨rfl, rfl⟩
  | cons b rest ih =>
    intro maps hk
    simp only [List.flatten_cons, List.map_append, List.mem_append] at hk
    push_neg at hk
    rw [List.foldl_cons]
    have step := ih (recordBatch maps b (oracle b)) hk.2
    refine ⟨step.1.trans ?_, step.2.trans ?_⟩
    · unfold recordBatch
      cases oracle b with
      | ok m => exact getAssoc_batch_set_not_mem fieldFingerprint _ k b _ hk.1
      | error e => rfl
    · unfold recordBatch
      cases oracle b with
      | ok m => rfl
      | error e => exact getAssoc_batch_set_not_mem fieldFingerprint _ k b _ hk.1

theorem runBatches_lookup (oracle : List FieldDesc → Except String (String → Option String)) :
    ∀ (batches : List (List FieldDesc)) (maps : FingMaps) (b : List FieldDesc)
      (g : FieldDesc),
      (batches.flatten.map fieldFingerprint).Nodup →
      b ∈ batches → g ∈ b →
      getAssoc maps.answerByFingerprint (fieldFingerprint g) = none →
      getAssoc maps.errorByFingerprint (fieldFingerprint g) = none →
      (∀ m, oracle b = .ok m →
        getAssoc (batches.foldl (fun mp bb => recordBatch mp bb (oracle bb)) maps).answerByFingerprint
            (fieldFingerprint g) = some ((m g.uid).getD "") ∧
        getAssoc (batches.foldl (fun mp bb => recordBatch mp bb (oracle bb)) maps).errorByFingerprint
            (fieldFingerprint g) = none) ∧
      (∀ e, oracle b = .error e →
        getAssoc (batches.foldl (fun mp bb => recordBatch mp bb (oracle bb)) maps).errorByFingerprint
            (fieldFingerprint g) = some e ∧
        getAssoc (batches.foldl (fun mp bb => recordBatch mp bb (oracle bb)) maps).answerByFingerprint
            (fieldFingerprint g) = none) := by
  intro batches
  induction batches with
  | nil =>
    intro maps b g _ hb
    exact absurd hb (List.not_mem_nil b)
  | cons b0 rest ih =>
    intro maps b g hnd hb hg hans herr
    have hsplit : ((b0 ++ rest.flatten).map fieldFingerprint).Nodup := by
      simpa [List.flatten_cons] using hnd
    rw [List.map_append] at hsplit
    have hb0nd := (List.nodup_append.mp hsplit).1
    have hrestnd := (List.nodup_append.mp hsplit).2.1
    have hdisj := (List.nodup_append.mp hsplit).2.2
    rcases List.mem_cons.mp hb with rfl | hbr
    · -- g's batch is the head
      have hnotrest : fieldFingerprint g ∉ rest.flatten.map fieldFingerprint := by
        intro hc
        exact hdisj (List.mem_map_of_mem _ hg) hc
      rw [List.foldl_cons]
      have hpres := runBatches_preserve oracle (fieldFingerprint g) rest
        (recordBatch maps b (oracle b)) hnotrest
      constructor
      · intro m hm
        rw [hpres.1, hpres.2]
        unfold recordBatch
        rw [hm]
        exact ⟨getAssoc_batch_set_mem fieldFingerprint _ b _ g hb0nd hg, herr⟩
      · intro e he
        rw [hpres.1, hpres.2]
        unfold recordBatch
        rw [he]
        exact ⟨getAssoc_batch_set_mem fieldFingerprint _ b _ g hb0nd hg, hans⟩
    · -- g's batch is in the tail
      have hnotb0 : fieldFingerprint g ∉ b0.map fieldFingerprint := by
        intro hc
        exact hdisj hc (List.mem_map_of_mem _ (List.mem_flatten.mpr ⟨b, hbr, hg⟩))
      rw [List.foldl_cons]
      apply ih (recordBatch maps b0 (oracle b0)) b g hrestnd hbr hg
      · unfold recordBatch
        cases oracle b0 with
        | ok m => rw [getAssoc_batch_set_not_mem fieldFingerprint _ _ b0 _ hnotb0]; exact hans
        | error e => exact hans
      · unfold recordBatch
        cases oracle b0 with
        | ok m => exact herr
        | error e => rw [getAssoc_batch_set_not_mem fieldFingerprint _ _ b0 _ hnotb0]; exact herr

/-- C3: in one bulk run, for every pair of collected fields with equal
fingerprints there is a batch holding the fingerprint's representative;
when that batch resolves, both fields see the same recorded value — a
non-empty answer V is applied to both (the page is asked to fill each with
V), an empty one reports both "not found" — and when that batch fails
after retries with message e, both fields are reported as the per-field
error e and counted skipped, neither filled. -/
theorem processAutofill_fingerprint_fanout (fields : List FieldDesc)
    (oracle : List FieldDesc → Except String (String → Option String))
    (fillOk : FieldDesc → String → Bool) (f1 f2 : FieldDesc)
    (h1 : f1 ∈ fields) (h2 : f2 ∈ fields)
    (hfp : fieldFingerprint f1 = fieldFingerprint f2) :
    (∃ b ∈ chunkArray (dedupeByFingerprint fields) AUTOFILL_BATCH_SIZE,
      ∃ g ∈ b, fieldFingerprint g = fieldFingerprint f1) ∧
    ∀ b ∈ chunkArray (dedupeByFingerprint fields) AUTOFILL_BATCH_SIZE,
      ∀ g ∈ b, fieldFingerprint g = fieldFingerprint f1 →
      (∀ m, oracle b = .ok m →
        ((m g.uid).getD "" ≠ "" →
          applyOutcome
              (runBatches (chunkArray (dedupeByFingerprint fields) AUTOFILL_BATCH_SIZE) oracle)
              fillOk f1 =
            .fillAttempted ((m g.uid).getD "") (fillOk f1 ((m g.uid).getD "")) ∧
          applyOutcome
              (runBatches (chunkArray (dedupeByFingerprint fields) AUTOFILL_BATCH_SIZE) oracle)
              fillOk f2 =
            .fillAttempted ((m g.uid).getD "") (fillOk f2 ((m g.uid).getD ""))) ∧
        ((m g.uid).getD "" = "" →
          applyOutcome
              (runBatches (chunkArray (dedupeByFingerprint fields) AUTOFILL_BATCH_SIZE) oracle)
              fillOk f1 = .notFoundSkipped ∧
          applyOutcome
              (runBatches (chunkArray (dedupeByFingerprint fields) AUTOFILL_BATCH_SIZE) oracle)
              fillOk f2 = .notFoundSkipped)) ∧
      (∀ e, oracle b = .error e →
        applyOutcome
            (runBatches (chunkArray (dedupeByFingerprint fields) AUTOFILL_BATCH_SIZE) oracle)
            fillOk f1 = .errorSkipped e ∧
        applyOutcome
            (runBatches (chunkArray (dedupeByFingerprint fields) AUTOFILL_BATCH_SIZE) oracle)
            fillOk f2 = .errorSkipped e ∧
        outcomeSkipped (applyOutcome
            (runBatches (chunkArray (dedupeByFingerprint fields) AUTOFILL_BATCH_SIZE) oracle)
            fillOk f1) = true ∧
        outcomeSkipped (applyOutcome
            (runBatches (chunkArray (dedupeByFingerprint fields) AUTOFILL_BATCH_SIZE) oracle)
            fillOk f2) = true) := by
  constructor
  · have hmem : fieldFingerprint f1 ∈ (dedupeByFingerprint fields).map fieldFingerprint := by
      unfold dedupeByFingerprint
      rw [(dedupeGo_fingerprints fields []).2]
      exact ⟨List.mem_map_of_mem _ h1, by simp⟩
    obtain ⟨g, hg, hgfp⟩ := List.mem_map.mp hmem
    have hgflat : g ∈ (chunkArray (dedupeByFingerprint fields)
        AUTOFILL_BATCH_SIZE).flatten := by
      show g ∈ (chunkArray (dedupeByFingerprint fields) (3 + 1)).flatten
      rw [chunkArray_join 3]
      exact hg
    obtain ⟨b, hb, hgb⟩ := List.mem_flatten.mp hgflat
    exact ⟨b, hb, g, hgb, hgfp⟩
  intro b hb g hg hgfp
  have hflat : (chunkArray (dedupeByFingerprint fields) AUTOFILL_BATCH_SIZE).flatten =
      dedupeByFingerprint fields := chunkArray_join 3 _
  have hnd : ((chunkArray (dedupeByFingerprint fields) AUTOFILL_BATCH_SIZE).flatten.map
      fieldFingerprint).Nodup := by
    rw [hflat]
    exact (dedupeGo_fingerprints fields []).1
  have hlk := runBatches_lookup oracle
    (chunkArray (dedupeByFingerprint fields) AUTOFILL_BATCH_SIZE) ⟨[], []⟩ b g
    hnd hb hg rfl rfl
  rw [hgfp] at hlk
  constructor
  · intro m hm
    have hok := hlk.1 m hm
    constructor
    · intro hV
      constructor
      · unfold applyOutcome runBatches
        rw [hok.2, hok.1]
        simp only [Option.getD_some]
        rw [if_neg hV]
      · unfold applyOutcome runBatches
        rw [← hfp, hok.2, hok.1]
        simp only [Option.getD_some]
        rw [if_neg hV]
    · intro hV
      constructor
      · unfold applyOutcome runBatches
        rw [hok.2, hok.1]
        simp only [Option.getD_some]
        rw [if_pos hV]
      · unfold applyOutcome runBatches
        rw [← hfp, hok.2, hok.1]
        simp only [Option.getD_some]
        rw [if_pos hV]
  · intro e he
    have herr := hlk.2 e he
    have hf1 : applyOutcome
        (runBatches (chunkArray (dedupeByFingerprint fields) AUTOFILL_BATCH_SIZE) oracle)
        fillOk f1 = .errorSkipped e := by
      simp only [applyOutcome, runBatches]
      rw [herr.1]
    have hf2 : applyOutcome
        (runBatches (chunkArray (dedupeByFingerprint fields) AUTOFILL_BATCH_SIZE) oracle)
        fillOk f2 = .errorSkipped e := by
      simp only [applyOutcome, runBatches]
      rw [← hfp, herr.1]
    exact ⟨hf1, hf2, by rw [hf1]; rfl, by rw [hf2]; rfl⟩

/-- The oracle of the witness run: one answer for the representative's
uid. -/
def oracleC3 : List FieldDesc → Except String (String → Option String) :=
  fun _ => .ok (fun u => if u = "aff-1" then some "Jane" else none)

theorem chunkC3_eval :
    chunkArray (dedupeByFingerprint [fieldC9a, fieldC9b]) AUTOFILL_BATCH_SIZE =
      [[fieldC9a]] := by
  have hd : dedupeByFingerprint [fieldC9a, fieldC9b] = [fieldC9a] := by decide
  rw [hd]
  show chunkArray [fieldC9a] (3 + 1) = [[fieldC9a]]
  rw [chunkArray]
  simp only [List.take_succ_cons, List.take_nil, List.drop_succ_cons, List.drop_nil]
  rw [chunkArray]

theorem processAutofill_fingerprint_fanout_witness :
    fieldC9a ∈ [fieldC9a, fieldC9b] ∧ fieldC9b ∈ [fieldC9a, fieldC9b] ∧
    fieldFingerprint fieldC9a = fieldFingerprint fieldC9b ∧
    [fieldC9a] ∈ chunkArray (dedupeByFingerprint [fieldC9a, fieldC9b])
      AUTOFILL_BATCH_SIZE ∧
    fieldC9a ∈ ([fieldC9a] : List FieldDesc) ∧
    applyOutcome
        (runBatches (chunkArray (dedupeByFingerprint [fieldC9a, fieldC9b])
          AUTOFILL_BATCH_SIZE) oracleC3) (fun _ _ => true) fieldC9a =
      .fillAttempted "Jane" true ∧
    applyOutcome
        (runBatches (chunkArray (dedupeByFingerprint [fieldC9a, fieldC9b])
          AUTOFILL_BATCH_SIZE) oracleC3) (fun _ _ => true) fieldC9b =
      .fillAttempted "Jane" true :=
  ⟨by decide, by decide, by decide, by rw [chunkC3_eval]; decide,
    by decide,
    (((processAutofill_fingerprint_fanout [fieldC9a, fieldC9b] oracleC3
        (fun _ _ => true) fieldC9a fieldC9b (by decide) (by decide) (by decide)).2
      [fieldC9a] (by rw [chunkC3_eval]; decide) fieldC9a (by decide) (by decide)).1
      (fun u => if u = "aff-1" then some "Jane" else none) rfl).1 (by decide)
      |>.1.trans (by decide),
    (((processAutofill_fingerprint_fanout [fieldC9a, fieldC9b] oracleC3
        (fun _ _ => true) fieldC9a fieldC9b (by decide) (by decide) (by decide)).2
      [fieldC9a] (by rw [chunkC3_eval]; decide) fieldC9a (by decide) (by decide)).1
      (fun u => if u = "aff-1" then some "Jane" else none) rfl).1 (by decide)
      |>.2.trans (by decide)⟩

end AFF
